import Mathlib

/- Verification development for the BrevityBot repository (src/brevitybot.py).
   The Python code is shallowly embedded: Redis-backed state becomes explicit
   state records, async interleaving points (awaits) become explicit steps of
   relations, and `random.choice` / `random.sample` / `random.shuffle` become
   nondeterministic parameters constrained to the support the library functions
   can produce (membership, subpermutation, permutation). -/

namespace BrevityBot

/-- One brevity term, as produced by parse_brevity_terms:
    a dict with fields "term" and "definition". -/
structure Term where
  term : String
  definition : String
deriving DecidableEq, Repr

/-! ### Rotation engine: get_next_brevity_term (src/brevitybot.py lines 522-540) -/

/-- The list comprehension at line 529:
    unused_terms = [t for t in all_terms if t["term"] not in used_terms]. -/
def unusedTerms (allTerms : List Term) (used : List String) : List Term :=
  allTerms.filter (fun t => !(used.contains t.term))

/-- Redis SADD on a set of keys modelled as a duplicate-free list:
    adding a member already present is a no-op. -/
def sadd (u : List String) (k : String) : List String :=
  if u.contains k then u else k :: u

/-- One successful call of get_next_brevity_term for one guild, as a relation
    between the used set before (`used`) and after (`used'`), and the returned
    term (`chosen`).  Mirrors lines 522-540: if all_terms is empty the call
    returns None (no successful step); if every term key is in the used set the
    set is deleted (reset) and the choice is made from the full list; otherwise
    the choice is made from the unused list.  `random.choice` is modelled by
    membership in the list it draws from. -/
def nextStep (allTerms : List Term) (used : List String) (chosen : Term)
    (used' : List String) : Prop :=
  allTerms ≠ [] ∧
  ((unusedTerms allTerms used = [] ∧ chosen ∈ allTerms ∧ used' = sadd [] chosen.term) ∨
   (unusedTerms allTerms used ≠ [] ∧ chosen ∈ unusedTerms allTerms used ∧
     used' = sadd used chosen.term))

instance instDecidableNextStep (allTerms : List Term) (used : List String)
    (chosen : Term) (used' : List String) : Decidable (nextStep allTerms used chosen used') := by
  unfold nextStep
  infer_instance

/-- A sequence of successful get_next_brevity_term calls for one guild:
    `NextTrace allTerms u cs u'` means starting from used set `u` the calls
    returned the terms `cs` in order and left used set `u'`. -/
inductive NextTrace (allTerms : List Term) : List String → List Term → List String → Prop
  | nil (u : List String) : NextTrace allTerms u [] u
  | cons {u c u' cs u''} : nextStep allTerms u c u' → NextTrace allTerms u' cs u'' →
      NextTrace allTerms u (c :: cs) u''

/-! ### Per-guild scheduler state and tick (lines 176-211, 554-558, 1316-1362) -/

/-- The per-guild Redis keys the scheduler touches: the post_channels hash
    entry, membership in disabled_posting, post_freq and last_posted keys.
    `none` models an absent key. -/
structure GuildStore where
  channel : Option Nat
  disabled : Bool
  freq : Option Int
  lastPosted : Option ℚ
deriving DecidableEq

/-- get_post_frequency (line 192): int(value or 24). -/
def get_post_frequency (s : GuildStore) : Int :=
  s.freq.getD 24

/-- get_last_posted (lines 198-200): float(ts) if the key is set, else 0.0.
    Timestamps are modelled as exact rationals. -/
def get_last_posted (s : GuildStore) : ℚ :=
  s.lastPosted.getD 0

/-- The /setup command (lines 554-558): save_config writes the channel id and
    enable_posting removes the guild from the disabled set.  It does not write
    last_posted. -/
def setup_cmd (s : GuildStore) (channelId : Nat) : GuildStore :=
  { s with channel := some channelId, disabled := false }

/-- What one scheduler tick did for one guild. -/
inductive TickOutcome
  | skippedDisabled
  | skippedNotDue
  | removedStale
  | skippedNoTerm
  | posted (t : Term)
deriving DecidableEq, Repr

/-- The per-guild body of the post_brevity_term loop (lines 1316-1362).
    `channelExists` models client.get_channel returning a channel or None,
    `termFound` models the get_next_brevity_term result, `now` the time.time()
    read by the due check and `postTime` the time.time() recorded after the
    send succeeds. -/
def guild_tick (s : GuildStore) (channelExists : Bool) (termFound : Option Term)
    (now postTime : ℚ) : TickOutcome × GuildStore :=
  if s.disabled then (.skippedDisabled, s)
  else
    let next_post_time : ℚ := get_last_posted s + (get_post_frequency s : ℚ) * 3600
    if now < next_post_time - 300 ∨ now > next_post_time + 300 then (.skippedNotDue, s)
    else if !channelExists then (.removedStale, { s with channel := none })
    else
      match termFound with
      | none => (.skippedNoTerm, s)
      | some t => (.posted t, { s with lastPosted := some postTime })

/-! ### Quiz question generation (lines 713-757 private, 847-949 public) -/

/-- One multiple-choice option as built by the quiz command: a dict with
    "term", "definition" and "is_correct". -/
structure QOption where
  term : String
  definition : String
  is_correct : Bool
deriving DecidableEq, Repr

/-- The two prompt kinds drawn by random.choice at lines 731 and 885. -/
inductive PromptKind
  | term_to_definition
  | definition_to_term
deriving DecidableEq, Repr

/-- Lines 733 and 887: incorrect_terms = [t for t in all_terms if t["term"] != correct_term]. -/
def incorrect_terms (allTerms : List Term) (correct_term : String) : List Term :=
  allTerms.filter (fun t => !(t.term == correct_term))

/-- The unshuffled option list built at lines 737-742 / 754-756 (private) and
    891-896 / 909-912 (public): three incorrect options then the correct one.
    The regex text processing pick_single_definition is abstracted as the
    function parameter `pickDef`; it only affects the displayed definition
    text, never the term key or the is_correct flag. -/
def mk_options (kind : PromptKind) (pickDef : String → String)
    (incorrect_choices : List Term) (correct_term correct_def : String) : List QOption :=
  match kind with
  | .term_to_definition =>
      incorrect_choices.map (fun t => ⟨t.term, pickDef t.definition, false⟩) ++
        [⟨correct_term, correct_def, true⟩]
  | .definition_to_term =>
      incorrect_choices.map (fun t => ⟨t.term, t.definition, false⟩) ++
        [⟨correct_term, correct_def, true⟩]

/-! ### Public-mode vote collection (PublicQuizView lines 648-690,
    quiz command lines 837-1157) -/

/-- Redis HSET on one answers hash, decode_responses style: the field for the
    user is overwritten if present, appended otherwise. -/
def hset : List (String × Nat) → String → Nat → List (String × Nat)
  | [], uid, idx => [(uid, idx)]
  | (u, v) :: rest, uid, idx =>
      if u = uid then (u, idx) :: rest else (u, v) :: hset rest uid idx

/-- Redis HGET on one answers hash. -/
def hget (m : List (String × Nat)) (uid : String) : Option Nat :=
  (m.find? (fun p => p.1 == uid)).map Prod.snd

/-- The observable state of one running public quiz: one answers hash per
    question (quiz:id:answers:i), whether the duration timer has fired, and
    the per-question tally snapshots close_and_summarize has read so far. -/
structure PubSession where
  votes : List (List (String × Nat))
  closed : Bool
  summary : List (Option (List (String × Nat)))
deriving DecidableEq, Repr

/-- Events of a public quiz session: a button press handled by
    PublicQuizView.handle_vote (lines 657-678), the duration timer firing
    (line 1049), and close_and_summarize reading one question's answers hash
    with r.hgetall (line 1056). -/
inductive QEvent
  | vote (q : Nat) (uid : String) (idx : Nat)
  | timerFire
  | readTally (q : Nat)

/-- The step function of a public quiz session.  handle_vote always writes the
    latest selection to Redis (line 661) - the code contains no check of the
    session's closed state - so a vote event updates the answers hash
    unconditionally. -/
def pub_step (s : PubSession) : QEvent → PubSession
  | .vote q uid idx =>
      { s with votes := s.votes.set q (hset (s.votes.getD q []) uid idx) }
  | .timerFire => { s with closed := true }
  | .readTally q => { s with summary := s.summary.set q (some (s.votes.getD q [])) }

/-! ### Score history / Greenie board (lines 1084-1093) -/

/-- One greenie entry as serialised at line 1088. -/
structure ScoreEntry where
  correct : Nat
  total : Nat
  ts : Nat
deriving DecidableEq, Repr

/-- Lines 1090-1091: r.lpush key entry then r.ltrim key 0 9. -/
def scoreAppend (history : List ScoreEntry) (e : ScoreEntry) : List ScoreEntry :=
  (e :: history).take 10

/-- The externally visible actions of the quiz flows that matter for score
    history: sending a (possibly ephemeral) chat message, and pushing a greenie
    entry for one guild/user key. -/
inductive Effect
  | message (ephemeral : Bool) (msg : String)
  | greeniePush (guildId uid : String) (e : ScoreEntry)
deriving DecidableEq, Repr

/-- The greenie:guild:user Redis keys. -/
abbrev GreenieStore := String × String → List ScoreEntry

/-- Applying one effect to the greenie store: messages do not touch it,
    greeniePush is the lpush+ltrim pair. -/
def applyEffect (g : GreenieStore) : Effect → GreenieStore
  | .message _ _ => g
  | .greeniePush gid uid e =>
      fun k => if k = (gid, uid) then scoreAppend (g k) e else g k

def applyEffects (g : GreenieStore) (es : List Effect) : GreenieStore :=
  es.foldl applyEffect g

/-- Private-mode QuizView.handle_answer (lines 807-828): bumps the in-memory
    score dict when the chosen option is correct and sends an ephemeral
    feedback message (message text abbreviated).  It performs no store write. -/
def private_handle_answer (options : List QOption) (idx correctCount : Nat) :
    Nat × Effect :=
  if (options.getD idx ⟨"", "", false⟩).is_correct then
    (correctCount + 1, .message true "Correct!")
  else
    (correctCount, .message true "Incorrect.")

/-- One iteration of the private-mode question chain: handle the answer to the
    current question, accumulating the running correct count and the emitted
    effects. -/
def private_step (acc : Nat × List Effect) (p : List QOption × Nat) :
    Nat × List Effect :=
  ((private_handle_answer p.1 p.2 acc.1).1,
   acc.2 ++ [(private_handle_answer p.1 p.2 acc.1).2])

/-- A complete private-mode session (lines 713-834): the participant answers
    each question in order, each answer is handled by handle_answer, and after
    the last question only the completion message is sent (line 828). -/
def private_quiz_run (optionSets : List (List QOption)) (answers : List Nat) :
    Nat × List Effect :=
  let r := (optionSets.zip answers).foldl private_step (0, [])
  (r.1, r.2 ++ [.message true "Quiz complete!"])

/-- The user_participation set built at lines 1054-1060: every uid appearing
    in any question's answers hash (each uid once). -/
def participation (answersList : List (List (String × Nat))) : List String :=
  (answersList.map (fun m => m.map Prod.fst)).flatten.dedup

/-- The per-user correct count of lines 1059-1062: one point for each question
    whose recorded answer index equals that question's correct index. -/
def user_correct (answersList : List (List (String × Nat)))
    (correct_indices : List Nat) (uid : String) : Nat :=
  (answersList.zip correct_indices).countP (fun p => hget p.1 uid == some p.2)

/-- The greenie writes of close_and_summarize (lines 1084-1093): one
    lpush+ltrim per participating user, with entry
    correct = that user's correct count, total = number of questions. -/
def summarize_effects (gid : String) (answersList : List (List (String × Nat)))
    (correct_indices : List Nat) (ts : Nat) : List Effect :=
  (participation answersList).map (fun uid =>
    .greeniePush gid uid
      ⟨user_correct answersList correct_indices uid, answersList.length, ts⟩)

/-! ### Term catalog refresh (parse_brevity_terms lines 299-391,
    update_brevity_terms lines 394-430) -/

/-- The brevity_terms key and its one backup copy. -/
structure CatalogStore where
  terms : Option (List Term)
  backup : Option (List Term)
deriving DecidableEq, Repr

/-- Lookup in the dict comprehension of line 409 (later duplicates win). -/
def dict_lookup (l : List Term) (k : String) : Option Term :=
  l.reverse.find? (fun t => t.term == k)

/-- Failure modes of fetching the Wikipedia page. -/
inductive FetchError
  | network (msg : String)
  | badContent
deriving DecidableEq, Repr

/-- parse_brevity_terms returns the empty list on any fetch or parse failure
    (lines 314, 327, 345), otherwise the parsed term list. -/
def parse_result : Except FetchError (List Term) → List Term
  | .error _ => []
  | .ok ts => ts

/-- update_brevity_terms (lines 394-430): with no parsed terms it returns
    (0, 0, 0) without touching Redis; otherwise it backs up the current value
    (only if one exists) and overwrites the catalog with the new list,
    reporting total/added/updated counts. -/
def update_brevity_terms (store : CatalogStore) (new_terms : List Term) :
    CatalogStore × Nat × Nat × Nat :=
  if new_terms.isEmpty then (store, 0, 0, 0)
  else
    let existing := store.terms.getD []
    let added := new_terms.filter (fun t => (dict_lookup existing t.term).isNone)
    let updated := new_terms.filter (fun t =>
      (dict_lookup existing t.term).isSome && !(dict_lookup existing t.term == some t))
    ({ terms := some new_terms,
       backup := if store.terms.isSome then store.terms else store.backup },
     new_terms.length, added.length, updated.length)

/-! ### Concurrency model for get_next_brevity_term (lines 522-540) -/

/-- The used_terms:guild keys. -/
abbrev UsedStore := String → List String

/-- save_used_term (lines 172-174) for a given guild: r.sadd touches only that
    guild's key. -/
def guild_sadd (store : UsedStore) (g k : String) : UsedStore :=
  fun g2 => if g2 = g then sadd (store g2) k else store g2

/-- Outcomes of two overlapping get_next_brevity_term calls for the same
    guild.  Each call reads the used set in one awaited Redis call (smembers,
    line 170) and writes its chosen key in another (sadd, line 173); asyncio
    may run other code between the two.  serial12/serial21 are the two
    serialised schedules; bothRead is the schedule in which both reads
    complete before either write (possible only when neither call saw an
    exhausted set, so neither deletes it). -/
inductive OverlapExec (allTerms : List Term) (u0 : List String) :
    Term → Term → List String → Prop
  | serial12 {c1 u1 c2 u2} : nextStep allTerms u0 c1 u1 → nextStep allTerms u1 c2 u2 →
      OverlapExec allTerms u0 c1 c2 u2
  | serial21 {c2 u1 c1 u2} : nextStep allTerms u0 c2 u1 → nextStep allTerms u1 c1 u2 →
      OverlapExec allTerms u0 c1 c2 u2
  | bothRead {c1 c2} :
      unusedTerms allTerms u0 ≠ [] →
      c1 ∈ unusedTerms allTerms u0 → c2 ∈ unusedTerms allTerms u0 →
      OverlapExec allTerms u0 c1 c2 (sadd (sadd u0 c1.term) c2.term)

/-! ### Concrete terms used by witnesses and counterexamples -/

def tA : Term := ⟨"ANCHOR", "Orbit about a specific point."⟩

def tB : Term := ⟨"BANDIT", "An aircraft identified as an enemy."⟩

def tC : Term := ⟨"CLEAN", "No sensor information on the aircraft of interest."⟩

def tD : Term := ⟨"DIRT", "A surface threat system."⟩

/-- A four-term catalog. -/
def allTerms4 : List Term := [tA, tB, tC, tD]

/-- A two-term catalog. -/
def catalog2 : List Term := [tA, tB]

/-- A guild 25 hours past its last post with a 24-hour interval
    (1000000 - 910000 = 90000 s = 25 h). -/
def sC1 : GuildStore :=
  { channel := some 42, disabled := false, freq := some 24, lastPosted := some 910000 }

/-- A guild exactly 24 hours past its last post with a 24-hour interval
    (1000000 - 913600 = 86400 s = 24 h). -/
def sC1W : GuildStore :=
  { channel := some 7, disabled := false, freq := some 24, lastPosted := some 913600 }

/-- A guild that has never been set up nor posted. -/
def sFresh : GuildStore :=
  { channel := none, disabled := true, freq := none, lastPosted := none }

/-- A public quiz session with one question, no votes yet, nothing read. -/
def pubS0 : PubSession := ⟨[[]], false, [none]⟩

/-- Ten stored score entries. -/
def h10 : List ScoreEntry :=
  [⟨1, 2, 1⟩, ⟨2, 2, 2⟩, ⟨0, 2, 3⟩, ⟨1, 2, 4⟩, ⟨2, 2, 5⟩,
   ⟨1, 2, 6⟩, ⟨0, 2, 7⟩, ⟨2, 2, 8⟩, ⟨1, 2, 9⟩, ⟨2, 2, 10⟩]

/-- One private-mode question whose first option is the correct one. -/
def privOpts : List (List QOption) :=
  [[⟨"ANCHOR", "Orbit about a specific point.", true⟩,
    ⟨"BANDIT", "An aircraft identified as an enemy.", false⟩,
    ⟨"CLEAN", "No sensor information.", false⟩,
    ⟨"DIRT", "A surface threat system.", false⟩]]

/-- A catalog store holding a catalog and a backup. -/
def storeC8 : CatalogStore := ⟨some [tA, tB, tC], some [tA, tB]⟩

/-! ## Helper lemmas -/

theorem hget_hset_self (m : List (String × Nat)) (uid : String) (idx : Nat) :
    hget (hset m uid idx) uid = some idx := by
  induction m with
  | nil => simp [hset, hget]
  | cons p rest ih =>
    obtain ⟨u, v⟩ := p
    by_cases hu : u = uid
    · subst hu; simp [hset, hget]
    · simpa [hset, hget, hu] using ih

theorem hset_hset_self (m : List (String × Nat)) (uid : String) (a b : Nat) :
    hset (hset m uid a) uid b = hset m uid b := by
  induction m with
  | nil => simp [hset]
  | cons p rest ih =>
    obtain ⟨u, v⟩ := p
    by_cases hu : u = uid
    · subst hu; simp [hset]
    · simp [hset, hu, ih]

theorem getD_set_self {α : Type} (l : List α) (n : Nat) (x d : α) (h : n < l.length) :
    (l.set n x).getD n d = x := by
  simp [List.getD, List.getElem?_set_eq_of_lt x h]

/-! ## Claim theorems -/

/-- C7: the stored score history never exceeds 10 entries; each new entry is
    pushed to the front, and appending to a history that already holds 10
    entries leaves exactly 10 entries with the oldest (last) one evicted. -/
theorem c7_score_bounded (h : List ScoreEntry) (e : ScoreEntry) :
    (scoreAppend h e).length ≤ 10 ∧
    (scoreAppend h e).head? = some e ∧
    (h.length = 10 →
      scoreAppend h e = e :: h.take 9 ∧ (scoreAppend h e).length = 10) := by
  refine ⟨?_, ?_, fun h10 => ⟨?_, ?_⟩⟩
  · simp [scoreAppend]
  · simp [scoreAppend]
  · show (e :: h).take (9 + 1) = e :: h.take 9
    exact List.take_succ_cons
  · simp [scoreAppend, h10]

/-- C7 witness: appending an 11th entry to a 10-entry history gives exactly 10
    entries headed by the new one, the oldest dropped. -/
theorem c7_score_bounded_witness :
    (scoreAppend h10 ⟨2, 2, 11⟩).length ≤ 10 ∧
    (scoreAppend h10 ⟨2, 2, 11⟩).head? = some ⟨2, 2, 11⟩ ∧
    scoreAppend h10 ⟨2, 2, 11⟩ = ⟨2, 2, 11⟩ :: h10.take 9 ∧
    (scoreAppend h10 ⟨2, 2, 11⟩).length = 10 := by
  obtain ⟨h1, h2, h3⟩ := c7_score_bounded h10 ⟨2, 2, 11⟩
  obtain ⟨h4, h5⟩ := h3 (by decide)
  exact ⟨h1, h2, h4, h5⟩

/-- C8: if fetching or parsing the remote term source fails or yields no
    terms, update_brevity_terms returns (0, 0, 0) without modifying either the
    stored catalog or its backup. -/
theorem c8_refresh_failure_keeps_catalog (store : CatalogStore)
    (fetch : Except FetchError (List Term))
    (hfail : parse_result fetch = []) :
    update_brevity_terms store (parse_result fetch) = (store, 0, 0, 0) := by
  rw [hfail]
  simp [update_brevity_terms]

/-- C8 witness: a network failure leaves a populated catalog and backup
    exactly as they were. -/
theorem c8_refresh_failure_keeps_catalog_witness :
    update_brevity_terms storeC8 (parse_result (.error (.network "timeout"))) =
      (storeC8, 0, 0, 0) :=
  c8_refresh_failure_keeps_catalog storeC8 (.error (.network "timeout")) rfl

/-- C3 counterexample: after the session is Closed (the duration timer fired),
    a vote handled by PublicQuizView.handle_vote is NOT rejected: it is
    silently recorded in the answers hash.  The claim requires such a vote to
    be rejected and not recorded. -/
theorem c3_counterexample :
    (pub_step (pub_step pubS0 .timerFire) (.vote 0 "77" 2)).closed = true ∧
    hget ((pub_step (pub_step pubS0 .timerFire)
      (.vote 0 "77" 2)).votes.getD 0 []) "77" = some 2 := by
  constructor <;> rfl

/-- C3 amended: a vote issued after the session is Closed is not rejected -
    handle_vote unconditionally records it in the vote store - but it does not
    alter any per-question tally snapshot already read by the summarizer, so
    it does not appear in the tally used for summarization. -/
theorem c3_amended (s : PubSession) (q : Nat) (uid : String) (idx : Nat)
    (hclosed : s.closed = true) (hq : q < s.votes.length) :
    hget ((pub_step s (.vote q uid idx)).votes.getD q []) uid = some idx ∧
    (pub_step s (.vote q uid idx)).summary = s.summary ∧
    (pub_step s (.vote q uid idx)).closed = true := by
  refine ⟨?_, rfl, hclosed⟩
  show hget ((s.votes.set q (hset (s.votes.getD q []) uid idx)).getD q []) uid = some idx
  rw [getD_set_self _ _ _ _ hq]
  exact hget_hset_self _ uid idx

/-- C3 witness: in a closed, already-summarized one-question session a late
    vote is recorded but the summary snapshot is untouched. -/
theorem c3_amended_witness :
    hget ((pub_step (pub_step (pub_step (pub_step pubS0 (.vote 0 "11" 1)) .timerFire)
        (.readTally 0)) (.vote 0 "77" 2)).votes.getD 0 []) "77" = some 2 ∧
    (pub_step (pub_step (pub_step (pub_step pubS0 (.vote 0 "11" 1)) .timerFire)
        (.readTally 0)) (.vote 0 "77" 2)).summary =
      (pub_step (pub_step (pub_step pubS0 (.vote 0 "11" 1)) .timerFire)
        (.readTally 0)).summary ∧
    (pub_step (pub_step (pub_step (pub_step pubS0 (.vote 0 "11" 1)) .timerFire)
        (.readTally 0)) (.vote 0 "77" 2)).closed = true := by
  exact c3_amended _ 0 "77" 2 rfl (by decide)

/-- C4: while a session is open, two sequential handle_vote calls by the same
    participant on the same question each get recorded (the repeat is never
    rejected as a duplicate) and leave only the second selection visible: the
    resulting answers hash equals the one produced by the second vote alone. -/
theorem c4_last_write_wins (s : PubSession) (q : Nat) (uid : String) (a b : Nat)
    (_hopen : s.closed = false) (hq : q < s.votes.length) :
    hget ((pub_step s (.vote q uid a)).votes.getD q []) uid = some a ∧
    hget ((pub_step (pub_step s (.vote q uid a))
      (.vote q uid b)).votes.getD q []) uid = some b ∧
    (pub_step (pub_step s (.vote q uid a)) (.vote q uid b)).votes.getD q [] =
      (pub_step s (.vote q uid b)).votes.getD q [] := by
  have hga : (pub_step s (.vote q uid a)).votes.getD q [] =
      hset (s.votes.getD q []) uid a := by
    show (s.votes.set q (hset (s.votes.getD q []) uid a)).getD q [] = _
    exact getD_set_self _ _ _ _ hq
  have hlen : q < (pub_step s (.vote q uid a)).votes.length := by
    show q < (s.votes.set q _).length
    simpa using hq
  have hgb : (pub_step (pub_step s (.vote q uid a)) (.vote q uid b)).votes.getD q [] =
      hset (hset (s.votes.getD q []) uid a) uid b := by
    show ((pub_step s (.vote q uid a)).votes.set q
      (hset ((pub_step s (.vote q uid a)).votes.getD q []) uid b)).getD q [] = _
    rw [getD_set_self _ _ _ _ hlen, hga]
  refine ⟨?_, ?_, ?_⟩
  · rw [hga]; exact hget_hset_self _ uid a
  · rw [hgb, hset_hset_self]; exact hget_hset_self _ uid b
  · rw [hgb, hset_hset_self]
    show _ = (s.votes.set q (hset (s.votes.getD q []) uid b)).getD q []
    rw [getD_set_self _ _ _ _ hq]

/-- C4 witness: voting 1 then 3 on the same open question records both times
    and leaves 3 as the only visible selection. -/
theorem c4_last_write_wins_witness :
    hget ((pub_step pubS0 (.vote 0 "11" 1)).votes.getD 0 []) "11" = some 1 ∧
    hget ((pub_step (pub_step pubS0 (.vote 0 "11" 1))
      (.vote 0 "11" 3)).votes.getD 0 []) "11" = some 3 ∧
    (pub_step (pub_step pubS0 (.vote 0 "11" 1)) (.vote 0 "11" 3)).votes.getD 0 [] =
      (pub_step pubS0 (.vote 0 "11" 3)).votes.getD 0 [] :=
  c4_last_write_wins pubS0 0 "11" 1 3 rfl (by decide)

/-- C1 counterexample: a community with postingEnabled, a 24-hour interval and
    lastPostedAt exactly 25 hours in the past is NOT due: the current time is
    outside the ±300 s window around lastPostedAt + 24 h, so the tick skips it
    and posts nothing, even with the channel reachable and a term available. -/
theorem c1_counterexample :
    (guild_tick sC1 true (some tA) 1000000 1000000).1 = .skippedNotDue ∧
    (guild_tick sC1 true (some tA) 1000000 1000000).2 = sC1 := by
  constructor <;> norm_num [guild_tick, sC1, get_last_posted, get_post_frequency]

/-- C1 amended: an enabled community whose tick time lies within the ±300 s
    tolerance window around lastPostedAt + postIntervalHours (for example
    lastPostedAt exactly 24 hours in the past with a 24-hour interval) is due:
    the tick posts the term and records lastPostedAt = the post time, after
    which every tick earlier than 300 s before the new due time is skipped, so
    the community is not due again for about postIntervalHours.  (A community
    25 hours past a 24-hour interval is outside the window and is skipped.) -/
theorem c1_amended (s : GuildStore) (t : Term) (now postTime t2 : ℚ)
    (hen : s.disabled = false)
    (hlo : get_last_posted s + (get_post_frequency s : ℚ) * 3600 - 300 ≤ now)
    (hhi : now ≤ get_last_posted s + (get_post_frequency s : ℚ) * 3600 + 300)
    (hearly : t2 < postTime + (get_post_frequency s : ℚ) * 3600 - 300) :
    (guild_tick s true (some t) now postTime).1 = .posted t ∧
    get_last_posted (guild_tick s true (some t) now postTime).2 = postTime ∧
    ∀ (ce : Bool) (tf : Option Term) (pt2 : ℚ),
      (guild_tick (guild_tick s true (some t) now postTime).2 ce tf t2 pt2).1 =
        .skippedNotDue := by
  have hwin : ¬ (now < get_last_posted s + (get_post_frequency s : ℚ) * 3600 - 300 ∨
      now > get_last_posted s + (get_post_frequency s : ℚ) * 3600 + 300) := by
    push_neg
    exact ⟨hlo, hhi⟩
  have h1 : guild_tick s true (some t) now postTime =
      (.posted t, { s with lastPosted := some postTime }) := by
    simp [guild_tick, hen, hwin]
  refine ⟨by rw [h1], by rw [h1]; simp [get_last_posted], ?_⟩
  intro ce tf pt2
  rw [h1]
  have hearly2 : t2 < postTime + ((Option.getD s.freq 24 : Int) : ℚ) * 3600 - 300 := by
    simpa [get_post_frequency] using hearly
  simp [guild_tick, hen, get_last_posted, get_post_frequency, hearly2]

/-- C1 witness: a community enabled, interval 24 h, last posted exactly 24 h
    ago is posted to at time 1000000; lastPostedAt becomes 1000000 and a tick
    at 1086000 (just under 24 h later) is skipped. -/
theorem c1_amended_witness :
    (guild_tick sC1W true (some tB) 1000000 1000000).1 = .posted tB ∧
    get_last_posted (guild_tick sC1W true (some tB) 1000000 1000000).2 = 1000000 ∧
    (guild_tick (guild_tick sC1W true (some tB) 1000000 1000000).2
      true none 1086000 1086000).1 = .skippedNotDue := by
  obtain ⟨w1, w2, w3⟩ := c1_amended sC1W tB 1000000 1000000 1086000 rfl
    (by norm_num [sC1W, get_last_posted, get_post_frequency])
    (by norm_num [sC1W, get_last_posted, get_post_frequency])
    (by norm_num [sC1W, get_post_frequency])
  exact ⟨w1, w2, w3 true none 1086000⟩

/-- C9: a guild configured via /setup that has never received a scheduled post
    has no last_posted key, so get_last_posted reads 0; with any present-day
    tick time (anything later than interval + 300 s past the epoch) the due
    window check fails, the tick is skipped and the store is unchanged - the
    scheduler never delivers a first scheduled post to such a community. -/
theorem c9_fresh_guild_never_posted (s : GuildStore) (cid : Nat)
    (hfresh : s.lastPosted = none)
    (channelExists : Bool) (termFound : Option Term) (now postTime : ℚ)
    (hnow : (get_post_frequency (setup_cmd s cid) : ℚ) * 3600 + 300 < now) :
    get_last_posted (setup_cmd s cid) = 0 ∧
    guild_tick (setup_cmd s cid) channelExists termFound now postTime =
      (.skippedNotDue, setup_cmd s cid) := by
  have h0 : get_last_posted (setup_cmd s cid) = 0 := by
    simp [get_last_posted, setup_cmd, hfresh]
  refine ⟨h0, ?_⟩
  have hcond : now > get_last_posted (setup_cmd s cid) +
      (get_post_frequency (setup_cmd s cid) : ℚ) * 3600 + 300 := by
    rw [h0]
    linarith
  have hdis : (setup_cmd s cid).disabled = false := rfl
  simp [guild_tick, hdis, hcond]

/-- C9 witness: a fresh guild set up on channel 5 with the default 24-hour
    interval is skipped at the present-day timestamp 1700000000. -/
theorem c9_fresh_guild_never_posted_witness :
    get_last_posted (setup_cmd sFresh 5) = 0 ∧
    guild_tick (setup_cmd sFresh 5) true (some tA) 1700000000 1700000000 =
      (.skippedNotDue, setup_cmd sFresh 5) :=
  c9_fresh_guild_never_posted sFresh 5 rfl true (some tA) 1700000000 1700000000
    (by norm_num [sFresh, setup_cmd, get_post_frequency])

theorem subperm_map {α β : Type} (f : α → β) {l1 l2 : List α} (h : List.Subperm l1 l2) :
    List.Subperm (l1.map f) (l2.map f) := by
  obtain ⟨l, hperm, hsub⟩ := h
  exact ⟨l.map f, hperm.map f, hsub.map f⟩

theorem subperm_nodup {α : Type} {l1 l2 : List α} (h : List.Subperm l1 l2) (hn : l2.Nodup) :
    l1.Nodup := by
  obtain ⟨l, hperm, hsub⟩ := h
  exact hperm.nodup_iff.mp (hn.sublist hsub)

/-- C5: for every generated quiz question, in either prompt kind (and the
    identical construction is used by the private and the public mode), the
    shuffled option list has 4 entries of which exactly one has
    is_correct = true, the 4 term keys are pairwise distinct, and the 3
    distractors are drawn without replacement (hence pairwise distinct keys)
    from the terms whose key differs from the correct term's key.
    random.sample is modelled by the subpermutation hypothesis and
    random.shuffle by the permutation hypothesis. -/
theorem c5_option_integrity (allTerms : List Term) (correct : Term)
    (kind : PromptKind) (pickDef : String → String) (correct_def : String)
    (incorrect_choices : List Term) (options : List QOption)
    (hnodup : (allTerms.map Term.term).Nodup)
    (hlen : incorrect_choices.length = 3)
    (hsample : List.Subperm incorrect_choices (incorrect_terms allTerms correct.term))
    (hshuffle : List.Perm options (mk_options kind pickDef incorrect_choices
      correct.term correct_def)) :
    options.length = 4 ∧
    options.countP (fun o => o.is_correct) = 1 ∧
    (options.map QOption.term).Nodup ∧
    (∀ t ∈ incorrect_choices, t.term ≠ correct.term) ∧
    (incorrect_choices.map Term.term).Nodup := by
  have hfilter_keys : ((incorrect_terms allTerms correct.term).map Term.term).Nodup :=
    hnodup.sublist ((List.filter_sublist allTerms).map Term.term)
  have hchoice_keys : (incorrect_choices.map Term.term).Nodup :=
    subperm_nodup (subperm_map Term.term hsample) hfilter_keys
  have hne : ∀ t ∈ incorrect_choices, t.term ≠ correct.term := by
    intro t ht
    have := hsample.subset ht
    simp only [incorrect_terms, List.mem_filter, Bool.not_eq_eq_eq_not,
      Bool.not_true, beq_eq_false_iff_ne, ne_eq] at this
    exact this.2
  have hbase_keys : (mk_options kind pickDef incorrect_choices
      correct.term correct_def).map QOption.term =
      incorrect_choices.map Term.term ++ [correct.term] := by
    cases kind <;> simp [mk_options]
  refine ⟨?_, ?_, ?_, hne, hchoice_keys⟩
  · rw [hshuffle.length_eq]
    cases kind <;> simp [mk_options, hlen]
  · rw [hshuffle.countP_eq]
    cases kind <;> simp [mk_options, List.countP_append, List.countP_map, Function.comp]
  · rw [(hshuffle.map QOption.term).nodup_iff, hbase_keys]
    simp only [List.nodup_append, List.nodup_cons, List.not_mem_nil,
      not_false_eq_true, List.nodup_nil, and_self, true_and]
    refine ⟨hchoice_keys, ?_⟩
    intro k hk
    obtain ⟨t, ht, rfl⟩ := List.mem_map.mp hk
    simpa using hne t ht

/-- C5 witness: with the four-term catalog, correct term ANCHOR, the three
    remaining terms as distractors and the unshuffled order, the generated
    options satisfy the integrity properties. -/
theorem c5_option_integrity_witness :
    (mk_options .term_to_definition id (incorrect_terms allTerms4 tA.term)
      tA.term tA.definition).length = 4 ∧
    (mk_options .term_to_definition id (incorrect_terms allTerms4 tA.term)
      tA.term tA.definition).countP (fun o => o.is_correct) = 1 ∧
    ((mk_options .term_to_definition id (incorrect_terms allTerms4 tA.term)
      tA.term tA.definition).map QOption.term).Nodup ∧
    (∀ t ∈ incorrect_terms allTerms4 tA.term, t.term ≠ tA.term) ∧
    ((incorrect_terms allTerms4 tA.term).map Term.term).Nodup :=
  c5_option_integrity allTerms4 tA .term_to_definition id tA.definition
    (incorrect_terms allTerms4 tA.term) _ (by decide) (by decide)
    (List.Subperm.refl _) (List.Perm.refl _)

theorem nextTrace_inv (allTerms : List Term) {u0 : List String} {cs : List Term}
    {u : List String} (hnodup : (allTerms.map Term.term).Nodup)
    (htrace : NextTrace allTerms u0 cs u) :
    u0.Nodup → (∀ x ∈ u0, x ∈ allTerms.map Term.term) →
    u0.length + cs.length ≤ allTerms.length →
    u = (cs.map Term.term).reverse ++ u0 ∧ u.Nodup ∧ ∀ c ∈ cs, c ∈ allTerms := by
  induction htrace with
  | nil v =>
    intro h1 _ _
    exact ⟨by simp, h1, by simp⟩
  | cons hstep htr ih =>
    rename_i ua c ub cs2 uc
    intro hnd hsub hlen
    obtain ⟨hne0, hor⟩ := hstep
    have hnot_exhausted : unusedTerms allTerms ua ≠ [] := by
      intro hemp
      have hsubset : allTerms.map Term.term ⊆ ua := by
        intro x hx
        obtain ⟨t, ht, rfl⟩ := List.mem_map.mp hx
        have := List.filter_eq_nil_iff.mp hemp t ht
        simpa using this
      have hle := (List.subperm_of_subset hnodup hsubset).length_le
      simp only [List.length_map] at hle
      simp only [List.length_cons] at hlen
      omega
    rcases hor with ⟨hemp, _, _⟩ | ⟨_, hmem, hset⟩
    · exact absurd hemp hnot_exhausted
    · have hmem2 := List.mem_filter.mp hmem
      have hcall : c ∈ allTerms := hmem2.1
      have hnotin : ¬ ua.contains c.term = true := by
        simpa using hmem2.2
      have hnotmem : c.term ∉ ua := by
        simpa using hnotin
      have hub : ub = c.term :: ua := by
        rw [hset, sadd, if_neg hnotin]
      subst hub
      obtain ⟨he, hn, hc⟩ := ih (List.nodup_cons.mpr ⟨hnotmem, hnd⟩)
        (by
          intro x hx
          rcases List.mem_cons.mp hx with rfl | hx2
          · exact List.mem_map_of_mem Term.term hcall
          · exact hsub x hx2)
        (by simp only [List.length_cons] at hlen ⊢; omega)
      refine ⟨?_, hn, ?_⟩
      · rw [he]
        simp
      · intro c2 hc2
        rcases List.mem_cons.mp hc2 with rfl | hc3
        · exact hcall
        · exact hc c2 hc3

/-- C2: starting from an empty used set, any N successful get_next_brevity_term
    calls with N at most the catalog size return pairwise distinct terms (no
    repeats until the deck is exhausted); and after exactly catalogSize calls
    the used set covers the whole catalog, so on the next call the reset branch
    fires: every catalog term is a possible result, and the call leaves the
    used set holding just that term's key (the used set was cleared). -/
theorem c2_rotation_no_repeat (allTerms : List Term) (cs : List Term)
    (u : List String)
    (hnodup : (allTerms.map Term.term).Nodup)
    (htrace : NextTrace allTerms [] cs u) :
    (cs.length ≤ allTerms.length → (cs.map Term.term).Nodup) ∧
    (cs.length = allTerms.length →
      ∀ t ∈ allTerms, nextStep allTerms u t [t.term]) := by
  constructor
  · intro hle
    obtain ⟨he, hn, _⟩ := nextTrace_inv allTerms hnodup htrace (by simp)
      (by simp) (by simpa)
    rw [he] at hn
    simpa using hn
  · intro heq t ht
    obtain ⟨he, hn, hc⟩ := nextTrace_inv allTerms hnodup htrace (by simp)
      (by simp) (by simp [heq])
    have hkeys_in_u : ∀ x ∈ allTerms.map Term.term, x ∈ u := by
      have husub : u ⊆ allTerms.map Term.term := by
        intro x hx
        rw [he] at hx
        simp only [List.append_nil, List.mem_reverse] at hx
        obtain ⟨t2, ht2, rfl⟩ := List.mem_map.mp hx
        exact List.mem_map_of_mem Term.term (hc t2 ht2)
      have hulen : (allTerms.map Term.term).length ≤ u.length := by
        rw [he]
        simp [heq]
      have hperm := (List.subperm_of_subset hn husub).perm_of_length_le hulen
      intro x hx
      exact hperm.mem_iff.mpr hx
    have hunused : unusedTerms allTerms u = [] := by
      rw [unusedTerms, List.filter_eq_nil_iff]
      intro t2 ht2
      simpa using hkeys_in_u t2.term (List.mem_map_of_mem Term.term ht2)
    refine ⟨List.ne_nil_of_mem ht, Or.inl ⟨hunused, ht, ?_⟩⟩
    simp [sadd]

/-- C2 witness: with the two-term catalog, the trace ANCHOR then BANDIT uses
    distinct terms, and a third call may return ANCHOR again via the reset
    branch, leaving the used set holding only its key. -/
theorem c2_rotation_no_repeat_witness :
    ([tA, tB].map Term.term).Nodup ∧
    nextStep catalog2 ["BANDIT", "ANCHOR"] tA [tA.term] := by
  have h1 : nextStep catalog2 [] tA ["ANCHOR"] := by decide
  have h2 : nextStep catalog2 ["ANCHOR"] tB ["BANDIT", "ANCHOR"] := by decide
  have htr : NextTrace catalog2 [] [tA, tB] ["BANDIT", "ANCHOR"] :=
    .cons h1 (.cons h2 (.nil _))
  have h := c2_rotation_no_repeat catalog2 [tA, tB] ["BANDIT", "ANCHOR"] (by decide) htr
  exact ⟨h.1 (by decide), h.2 (by decide) tA (by decide)⟩

theorem applyEffects_of_messages (g : GreenieStore) (es : List Effect)
    (h : ∀ e ∈ es, ∃ eph m, e = Effect.message eph m) : applyEffects g es = g := by
  induction es generalizing g with
  | nil => rfl
  | cons e rest ih =>
    obtain ⟨eph, m, rfl⟩ := h _ (List.mem_cons_self _ _)
    simp only [applyEffects, List.foldl_cons]
    exact ih g (fun e2 he2 => h e2 (List.mem_cons_of_mem _ he2))

theorem private_handle_answer_message (o : List QOption) (i c : Nat) :
    ∃ m, (private_handle_answer o i c).2 = Effect.message true m := by
  unfold private_handle_answer
  split
  · exact ⟨"Correct!", rfl⟩
  · exact ⟨"Incorrect.", rfl⟩

theorem private_fold_messages (l : List (List QOption × Nat)) (acc : Nat × List Effect)
    (h : ∀ e ∈ acc.2, ∃ eph m, e = Effect.message eph m) :
    ∀ e ∈ (l.foldl private_step acc).2, ∃ eph m, e = Effect.message eph m := by
  induction l generalizing acc with
  | nil => exact h
  | cons p rest ih =>
    refine ih _ ?_
    intro e he
    simp only [private_step] at he
    rcases List.mem_append.mp he with h1 | h2
    · exact h e h1
    · obtain ⟨m, hm⟩ := private_handle_answer_message p.1 p.2 acc.1
      exact ⟨true, m, (List.mem_singleton.mp h2).trans hm⟩

theorem private_quiz_run_messages (optionSets : List (List QOption)) (answers : List Nat) :
    ∀ e ∈ (private_quiz_run optionSets answers).2, ∃ eph m, e = Effect.message eph m := by
  intro e he
  simp only [private_quiz_run] at he
  rcases List.mem_append.mp he with h1 | h2
  · exact private_fold_messages _ _ (by simp) e h1
  · exact ⟨true, "Quiz complete!", List.mem_singleton.mp h2⟩

theorem applyEffect_push_ne (g : GreenieStore) (gid u2 : String) (e : ScoreEntry)
    (k : String × String) (h : k ≠ (gid, u2)) :
    applyEffect g (.greeniePush gid u2 e) k = g k := by
  simp [applyEffect, h]

theorem applyEffect_push_self (g : GreenieStore) (gid u2 : String) (e : ScoreEntry) :
    applyEffect g (.greeniePush gid u2 e) (gid, u2) = scoreAppend (g (gid, u2)) e := by
  simp [applyEffect]

theorem applyEffects_pushes_not_mem (gid : String) (uids : List String)
    (f : String → ScoreEntry) (g : GreenieStore) (uid : String)
    (h : uid ∉ uids) :
    applyEffects g (uids.map (fun u2 => Effect.greeniePush gid u2 (f u2))) (gid, uid) =
      g (gid, uid) := by
  induction uids generalizing g with
  | nil => rfl
  | cons u2 rest ih =>
    have hne : (gid, uid) ≠ (gid, u2) := by
      intro hh
      have huu : uid = u2 := congrArg Prod.snd hh
      exact h (huu ▸ List.mem_cons_self _ _)
    simp only [List.map_cons, applyEffects, List.foldl_cons]
    have := ih (applyEffect g (Effect.greeniePush gid u2 (f u2)))
      (fun hm => h (List.mem_cons_of_mem _ hm))
    simp only [applyEffects] at this
    rw [this, applyEffect_push_ne g gid u2 (f u2) _ hne]

theorem applyEffects_pushes_mem (gid : String) (uids : List String)
    (f : String → ScoreEntry) (g : GreenieStore) (uid : String)
    (hmem : uid ∈ uids) (hnd : uids.Nodup) :
    applyEffects g (uids.map (fun u2 => Effect.greeniePush gid u2 (f u2))) (gid, uid) =
      scoreAppend (g (gid, uid)) (f uid) := by
  induction uids generalizing g with
  | nil => cases hmem
  | cons u2 rest ih =>
    obtain ⟨hnotin, hndrest⟩ := List.nodup_cons.mp hnd
    simp only [List.map_cons, applyEffects, List.foldl_cons]
    rcases List.mem_cons.mp hmem with rfl | hrest
    · have hstop := applyEffects_pushes_not_mem gid rest f
        (applyEffect g (Effect.greeniePush gid uid (f uid))) uid hnotin
      simp only [applyEffects] at hstop
      rw [hstop, applyEffect_push_self]
    · have hne : (gid, uid) ≠ (gid, u2) := by
        intro hh
        have : uid = u2 := congrArg Prod.snd hh
        exact hnotin (this ▸ hrest)
      have := ih (applyEffect g (Effect.greeniePush gid u2 (f u2))) hrest hndrest
      simp only [applyEffects] at this
      rw [this, applyEffect_push_ne g gid u2 (f u2) _ hne]

/-- C6 counterexample: a completed private-mode session in which the single
    participant answered its one question correctly leaves the greenie score
    history untouched: no ScoreEntry of the form (correct = 1, total = 1) is
    appended for any timestamp.  The claim requires an appended entry in
    private mode as well. -/
theorem c6_counterexample :
    ¬ ∃ ts : Nat,
        applyEffects (fun _ => []) (private_quiz_run privOpts [0]).2 ("g1", "u1") =
          scoreAppend ((fun (_ : String × String) => ([] : List ScoreEntry)) ("g1", "u1"))
            ⟨1, 1, ts⟩ := by
  rintro ⟨ts, h⟩
  have h0 := congrFun (applyEffects_of_messages (fun _ => ([] : List ScoreEntry)) _
    (private_quiz_run_messages privOpts [0])) ("g1", "u1")
  rw [h0] at h
  simp [scoreAppend] at h

/-- C6 amended: when a PUBLIC quiz session is summarized, every user who
    participated (voted on at least one question) has their
    (correct, total = question count) outcome appended (lpush + trim to 10) to
    their per-(community, participant) score history, and nobody else's
    history changes; a private-mode session, by contrast, only reports the
    score in messages and leaves every score history unchanged. -/
theorem c6_amended (gid : String) (answersList : List (List (String × Nat)))
    (correct_indices : List Nat) (ts : Nat) (g : GreenieStore) (uid : String)
    (optionSets : List (List QOption)) (answers : List Nat) :
    (uid ∈ participation answersList →
      applyEffects g (summarize_effects gid answersList correct_indices ts) (gid, uid) =
        scoreAppend (g (gid, uid))
          ⟨user_correct answersList correct_indices uid, answersList.length, ts⟩) ∧
    (uid ∉ participation answersList →
      applyEffects g (summarize_effects gid answersList correct_indices ts) (gid, uid) =
        g (gid, uid)) ∧
    applyEffects g (private_quiz_run optionSets answers).2 = g := by
  refine ⟨?_, ?_, ?_⟩
  · intro hmem
    exact applyEffects_pushes_mem gid (participation answersList) _ g uid hmem
      (List.nodup_dedup _)
  · intro hnmem
    exact applyEffects_pushes_not_mem gid (participation answersList) _ g uid hnmem
  · exact applyEffects_of_messages g _ (private_quiz_run_messages optionSets answers)

/-- C6 witness: summarizing a public session whose single question was
    answered correctly by user u1 appends the entry (1, 1, ts = 5) to u1's
    history, while running a private session leaves the store untouched. -/
theorem c6_amended_witness :
    applyEffects (fun _ => []) (summarize_effects "g1" [[("u1", 0)]] [0] 5) ("g1", "u1") =
      [⟨1, 1, 5⟩] ∧
    applyEffects (fun _ => []) (private_quiz_run privOpts [0]).2 = fun _ => [] := by
  constructor
  · have h := (c6_amended "g1" [[("u1", 0)]] [0] 5 (fun _ => []) "u1" privOpts [0]).1
      (by decide)
    rw [h]
    rfl
  · exact (c6_amended "g1" [[("u1", 0)]] [0] 5 (fun _ => []) "u1" privOpts [0]).2.2

/-- C10 counterexample: it is NOT true that two overlapping
    get_next_brevity_term calls for the same guild never double-use a term:
    with catalog (ANCHOR, BANDIT) and an empty used set there is an
    interleaving - both calls read the used set before either writes - in
    which both calls return ANCHOR. -/
theorem c10_counterexample :
    ¬ ∀ (c1 c2 : Term) (u2 : List String),
        OverlapExec catalog2 [] c1 c2 u2 → c1 ≠ c2 := by
  intro h
  exact h tA tA (sadd (sadd [] tA.term) tA.term)
    (OverlapExec.bothRead (by decide) (by decide) (by decide)) rfl

/-- C10 amended: calls for different communities cannot interfere - the
    used-set write touches only the calling guild's key - but for the same
    community the used-set read and write are separate awaited Redis
    operations, so two overlapping calls may both read the same snapshot and
    double-use one term (here both return ANCHOR). -/
theorem c10_amended :
    (∀ (store : UsedStore) (g g2 k : String), g2 ≠ g →
      guild_sadd store g k g2 = store g2) ∧
    (∃ u2, OverlapExec catalog2 [] tA tA u2) := by
  constructor
  · intro store g g2 k hne
    simp [guild_sadd, hne]
  · exact ⟨_, OverlapExec.bothRead (by decide) (by decide) (by decide)⟩

/-- C10 witness: a write for guild g1 leaves guild g2's used set unchanged,
    and the double-use interleaving exists for the concrete catalog. -/
theorem c10_amended_witness :
    guild_sadd (fun _ => []) "g1" "ANCHOR" "g2" = [] ∧
    ∃ u2, OverlapExec catalog2 [] tA tA u2 :=
  ⟨c10_amended.1 (fun _ => []) "g1" "g2" "ANCHOR" (by decide), c10_amended.2⟩

end BrevityBot
